import Mathlib

/-!
Verification of the MHTML archive encoder of `WebPageSerializer.cpp`
(Blink web/ layer) against its natural-language specification.

The shallow embedding below translates the source functions
(`MHTMLPageSerializerDelegate::shouldIgnoreAttribute`,
`MHTMLPageSerializerDelegate::rewriteLink`,
`WebPageSerializer::generateMHTMLParts`,
`WebPageSerializer::generateMetaCharsetDeclaration`,
`WebPageSerializer::generateBaseTagDeclaration`, ...) into executable Lean
definitions.  Collaborators that the source file calls but whose code is
not part of the visible source (`MHTMLArchive::generateMHTMLHeader`,
`MHTMLArchive::generateMHTMLPart`, `MHTMLParser::convertContentIDToURI`,
and the quoted-printable / base64 transfer encoders) are modelled from the
specification; each such definition is marked `Modelled from the spec:` in
its doc comment.  Strings of bytes are `List Nat` with each byte `< 256`.
-/

namespace Blink

/-- An opaque, stable frame identity (the source uses a `Frame*` pointer as
a hash-map key; the spec re-architects this as an opaque token). -/
structure Frame where
  id : Nat
deriving DecidableEq

/-- `ContentIDMap`: the `WillBeHeapHashMap<Frame*, String>` mapping each
frame to its content-identifier string, supplied by the caller. -/
abbrev ContentIDMap := List (Frame × String)

/-- `HashMap::get`: the value stored for `g`, or the null `String` (modelled
as `none`) when `g` has no entry. -/
def mapGet : ContentIDMap → Frame → Option String
  | [], _ => none
  | (f, cid) :: rest, g => if f = g then some cid else mapGet rest g

/-- A markup attribute as seen by `PageSerializer::Delegate` (only the
local name takes part in the decisions of this file). -/
structure Attribute where
  localName : String
deriving DecidableEq

/-- `HTMLNames::srcsetAttr`: the local name of the responsive-image
candidate attribute. -/
def srcsetAttrLocalName : String := "srcset"

/-- `MHTMLPageSerializerDelegate::shouldIgnoreAttribute`: discards the
`srcset` attribute, keeps every other attribute. -/
def shouldIgnoreAttribute (attr : Attribute) : Bool :=
  attr.localName == srcsetAttrLocalName

/-- `WebPageSerializer::generateMetaCharsetDeclaration`: builds the
`<meta>` charset declaration by plain string concatenation, embedding the
charset argument verbatim. -/
def generateMetaCharsetDeclaration (charset : String) : String :=
  "<meta http-equiv=\"Content-Type\" content=\"text/html; charset=" ++
    charset ++ "\">"

/-- `WebPageSerializer::generateBaseTagDeclaration`: the `<base>` tag,
with a `target` attribute exactly when the base target is non-empty. -/
def generateBaseTagDeclaration (baseTarget : String) : String :=
  if baseTarget.isEmpty then "<base href=\".\">"
  else "<base href=\".\" target=\"" ++ baseTarget ++ "\">"

/-- The document-type flags that `MHTMLPageSerializerDelegate::rewriteLink`
reads off a nested content document. -/
structure PageDocument where
  isHTMLDocument : Bool
  isXHTMLDocument : Bool
  isImageDocument : Bool
deriving DecidableEq

/-- The view of a markup element taken by
`MHTMLPageSerializerDelegate::rewriteLink`: its frame-owner status, its
nested content frame (if any), its concrete subtype tests, and the nested
content document the source dereferences in the object-element branch. -/
structure Element where
  isFrameOwnerElement : Bool
  contentFrame : Option Frame
  isHTMLFrameElementBase : Bool
  isHTMLObjectElement : Bool
  contentDocument : PageDocument
deriving DecidableEq

/-- Modelled from the spec: `MHTMLParser::convertContentIDToURI` is not
part of the visible source.  Per §4.2/§8 it wraps a content identifier `c`
into the `cid:c` URI form, while the null content identifier produced by a
`ContentIDMap` lookup miss yields an invalid `KURL` (`none`). -/
def convertContentIDToURI : Option String → Option String
  | none => none
  | some cid => some ("cid:" ++ cid)

/-- `ASSERT(cidURI.isValid())` failing is the only failure of the delegate;
it marks a caller-contract violation (a frame missing from the table). -/
inductive RewriteFailure where
  | assertionFailed
deriving DecidableEq

/-- `MHTMLPageSerializerDelegate::rewriteLink`: the C++ returns a `bool`
plus an out-parameter, modelled as `Option String` (`none` = link left
untouched); a fatal `ASSERT` failure is `Except.error`. -/
def rewriteLink (m : ContentIDMap) (e : Element) :
    Except RewriteFailure (Option String) :=
  if e.isFrameOwnerElement = false then Except.ok none
  else
    match e.contentFrame with
    | none => Except.ok none
    | some frame =>
      match convertContentIDToURI (mapGet m frame) with
      | none => Except.error RewriteFailure.assertionFailed
      | some cidURI =>
        if e.isHTMLFrameElementBase then Except.ok (some cidURI)
        else if e.isHTMLObjectElement then
          if e.contentDocument.isHTMLDocument ||
              e.contentDocument.isXHTMLDocument ||
              e.contentDocument.isImageDocument then
            Except.ok (some cidURI)
          else Except.ok none
        else Except.ok none

/-- `true` on letters, used by the URI scheme grammar below. -/
def isAlphaChar (c : Char) : Bool :=
  (97 ≤ c.toNat && c.toNat ≤ 122) || (65 ≤ c.toNat && c.toNat ≤ 90)

/-- `true` on the non-leading characters RFC 3986 allows in a scheme. -/
def isSchemeChar (c : Char) : Bool :=
  isAlphaChar c || (48 ≤ c.toNat && c.toNat ≤ 57) ||
    c = '+' || c = '-' || c = '.'

/-- After the leading letter: scheme characters up to a colon. -/
def schemeThenColon : List Char → Bool
  | [] => false
  | c :: rest => if c = ':' then true else isSchemeChar c && schemeThenColon rest

/-- URI syntax check: a nonempty scheme (letter first) followed by `:`. -/
def isValidURI (s : String) : Bool :=
  match s.data with
  | [] => false
  | c :: rest => isAlphaChar c && schemeThenColon rest

/-- `MHTMLArchive::EncodingPolicy`: chosen once per session. -/
inductive EncodingPolicy where
  | Default
  | ForceBinary
deriving DecidableEq

/-- The MIME transfer encodings the encoding selector may pick. -/
inductive TransferEncoding where
  | SevenBit
  | QuotedPrintable
  | Base64
  | Binary
deriving DecidableEq

/-- Modelled from the spec: the text-likeness test on a declared media
type used by encoding selection (§4.3: declared text, or known text-like
formats such as markup/stylesheet/script). -/
def isTextMediaType (mediaType : String) : Bool :=
  mediaType.startsWith "text/" || mediaType == "application/xhtml+xml" ||
    mediaType == "application/javascript"

/-- Modelled from the spec: `selectEncoding` of §4.3 — `ForceBinary`
always picks `Binary`; `Default` picks `QuotedPrintable` for text media
types and `Base64` for everything else. -/
def selectEncoding (mediaType : String) (policy : EncodingPolicy) :
    TransferEncoding :=
  match policy with
  | EncodingPolicy.ForceBinary => TransferEncoding.Binary
  | EncodingPolicy.Default =>
    if isTextMediaType mediaType then TransferEncoding.QuotedPrintable
    else TransferEncoding.Base64

/-- The uppercase ASCII hex digit (as a byte) of a nibble. -/
def hexByte (n : Nat) : Nat :=
  if n < 10 then 48 + n else 55 + n

/-- Inverse of `hexByte` on ASCII bytes; `none` on a non-hex byte. -/
def unhexByte (c : Nat) : Option Nat :=
  if 48 ≤ c ∧ c ≤ 57 then some (c - 48)
  else if 65 ≤ c ∧ c ≤ 70 then some (c - 65 + 10)
  else none

/-- Modelled from the spec: the quoted-printable encoding of one byte —
printable ASCII other than `=` (61) is emitted literally, every other
byte as `=XY` with uppercase hex digits. -/
def qpEncodeByte (b : Nat) : List Nat :=
  if 33 ≤ b ∧ b ≤ 126 ∧ b ≠ 61 then [b]
  else [61, hexByte (b / 16), hexByte (b % 16)]

/-- Modelled from the spec: quoted-printable soft line wrapping — encoded
atoms are emitted on the current line while it stays within 75 bytes
(leaving room for a trailing soft-break `=`); otherwise a soft line break
`=\r\n` is inserted first.  `n` is the length already on the current
line. -/
def qpWrap : List (List Nat) → Nat → List Nat
  | [], _ => []
  | a :: rest, n =>
    if n + a.length ≤ 75 then a ++ qpWrap rest (n + a.length)
    else 61 :: 13 :: 10 :: (a ++ qpWrap rest a.length)

/-- Modelled from the spec: the quoted-printable encoder (§4.3), wrapping
its output lines with soft line breaks at the 76-character MIME limit. -/
def qpEncode (bytes : List Nat) : List Nat :=
  qpWrap (bytes.map qpEncodeByte) 0

/-- Modelled from the spec: the quoted-printable decoder — `=\r\n` soft
breaks vanish, `=XY` decodes the hex byte, printable ASCII is literal. -/
def qpDecode : List Nat → Option (List Nat)
  | [] => some []
  | c :: rest =>
    if c = 61 then
      match rest with
      | h :: l :: rest2 =>
        if h = 13 ∧ l = 10 then qpDecode rest2
        else
          (unhexByte h).bind fun hd =>
          (unhexByte l).bind fun ld =>
          (qpDecode rest2).map fun bs => (hd * 16 + ld) :: bs
      | _ => none
    else if 33 ≤ c ∧ c ≤ 126 then (qpDecode rest).map fun bs => c :: bs
    else none

/-- The base64 alphabet byte of a 6-bit value. -/
def b64Byte (n : Nat) : Nat :=
  if n < 26 then 65 + n
  else if n < 52 then 97 + (n - 26)
  else if n < 62 then 48 + (n - 52)
  else if n = 62 then 43
  else 47

/-- Inverse of `b64Byte` on alphabet bytes; `none` elsewhere. -/
def b64Val (c : Nat) : Option Nat :=
  if 65 ≤ c ∧ c ≤ 90 then some (c - 65)
  else if 97 ≤ c ∧ c ≤ 122 then some (c - 97 + 26)
  else if 48 ≤ c ∧ c ≤ 57 then some (c - 48 + 52)
  else if c = 43 then some 62
  else if c = 47 then some 63
  else none

/-- Modelled from the spec: raw (unwrapped) base64 encoding — three input
bytes per four alphabet bytes, `=` (61) padding on a final short group. -/
def b64EncodeRaw : List Nat → List Nat
  | [] => []
  | [a] => [b64Byte (a / 4), b64Byte (a % 4 * 16), 61, 61]
  | [a, b] =>
    [b64Byte (a / 4), b64Byte (a % 4 * 16 + b / 16), b64Byte (b % 16 * 4), 61]
  | a :: b :: c :: rest =>
    b64Byte (a / 4) :: b64Byte (a % 4 * 16 + b / 16) ::
      b64Byte (b % 16 * 4 + c / 64) :: b64Byte (c % 64) :: b64EncodeRaw rest

/-- Modelled from the spec: raw base64 decoding of four-byte groups, with
`=` padding accepted only on the final group. -/
def b64DecodeRaw : List Nat → Option (List Nat)
  | [] => some []
  | w :: x :: y :: z :: rest =>
    (b64Val w).bind fun v1 =>
    (b64Val x).bind fun v2 =>
    if y = 61 ∧ z = 61 ∧ rest = [] then some [v1 * 4 + v2 / 16]
    else
      (b64Val y).bind fun v3 =>
      if z = 61 ∧ rest = [] then
        some [v1 * 4 + v2 / 16, v2 % 16 * 16 + v3 / 4]
      else
        (b64Val z).bind fun v4 =>
        (b64DecodeRaw rest).map fun bs =>
          (v1 * 4 + v2 / 16) :: (v2 % 16 * 16 + v3 / 4) ::
            (v3 % 4 * 64 + v4) :: bs
  | _ => none

/-- Modelled from the spec: hard line wrapping at the 76-character MIME
limit — a CRLF is inserted after every 76 bytes of encoder output. -/
def wrap76 (cs : List Nat) : List Nat :=
  if cs.length ≤ 76 then cs
  else cs.take 76 ++ 13 :: 10 :: wrap76 (cs.drop 76)
termination_by cs.length
decreasing_by simp [List.length_drop]; omega

/-- Dropping the CR and LF bytes a wrapped encoding inserted. -/
def stripCRLF (cs : List Nat) : List Nat :=
  cs.filter (fun c => c ≠ 13 && c ≠ 10)

/-- Modelled from the spec: the base64 encoder (§4.3), wrapped at 76. -/
def b64Encode (bytes : List Nat) : List Nat :=
  wrap76 (b64EncodeRaw bytes)

/-- Modelled from the spec: the base64 decoder — line breaks are ignored,
then four-byte groups are decoded. -/
def b64Decode (cs : List Nat) : Option (List Nat) :=
  b64DecodeRaw (stripCRLF cs)

/-- The body re-encoding applied under a selected transfer encoding
(`SevenBit` and `Binary` pass bytes through unmodified). -/
def encodeBody : TransferEncoding → List Nat → List Nat
  | TransferEncoding.QuotedPrintable, bs => qpEncode bs
  | TransferEncoding.Base64, bs => b64Encode bs
  | TransferEncoding.Binary, bs => bs
  | TransferEncoding.SevenBit, bs => bs

/-- Decoding a part body under a transfer encoding. -/
def decodeBody : TransferEncoding → List Nat → Option (List Nat)
  | TransferEncoding.QuotedPrintable, bs => qpDecode bs
  | TransferEncoding.Base64, bs => b64Decode bs
  | TransferEncoding.Binary, bs => some bs
  | TransferEncoding.SevenBit, bs => some bs

/-- Prepends a byte onto the first line of a line decomposition. -/
def consHead (c : Nat) : List (List Nat) → List (List Nat)
  | [] => [[c]]
  | l :: ls => (c :: l) :: ls

/-- Decomposes a byte stream into its CRLF-separated lines. -/
def splitCRLF : List Nat → List (List Nat)
  | [] => [[]]
  | [c] => [[c]]
  | c :: d :: rest =>
    if c = 13 ∧ d = 10 then [] :: splitCRLF rest
    else consHead c (splitCRLF (d :: rest))

/-- `SerializedResource`: one collected resource, as handed to part
emission (url, media type, optional text encoding name, raw bytes). -/
structure SerializedResource where
  url : String
  mimeType : String
  textEncodingName : Option String
  data : List Nat
deriving DecidableEq

/-- One emitted MIME part, viewed through its header fields and body;
`contentID = none` means the part carries no `Content-ID` field. -/
structure MHTMLPart where
  boundary : String
  contentID : Option String
  contentType : String
  charset : Option String
  contentLocation : String
  transferEncoding : TransferEncoding
  body : List Nat
deriving DecidableEq

/-- Modelled from the spec: `MHTMLArchive::generateMHTMLPart` is not part
of the visible source.  Per §4.2 each part carries `Content-Type` (with a
charset parameter when the text encoding name is present),
`Content-Location`, the transfer encoding chosen by encoding selection, a
`Content-ID` field exactly when a content identifier is supplied, and the
resource bytes re-encoded under the selected encoding. -/
def generateMHTMLPart (boundary : String) (contentID : Option String)
    (policy : EncodingPolicy) (r : SerializedResource) : MHTMLPart :=
  { boundary := boundary
    contentID := contentID
    contentType := r.mimeType
    charset := r.textEncodingName
    contentLocation := r.url
    transferEncoding := selectEncoding r.mimeType policy
    body := encodeBody (selectEncoding r.mimeType policy) r.data }

/-- Whether an emitted part carries a `Content-ID` field. -/
def hasContentID (p : MHTMLPart) : Bool :=
  p.contentID.isSome

/-- A placeholder part (used only as the out-of-range default of
`List.getD`). -/
def defaultMHTMLPart : MHTMLPart :=
  { boundary := ""
    contentID := none
    contentType := ""
    charset := none
    contentLocation := ""
    transferEncoding := TransferEncoding.Binary
    body := [] }

/-- The resource loop of `WebPageSerializer::generateMHTMLParts`: the
frame is the first resource and only it gets the content identifier from
the table (`isFirstResource ? frameToContentID.get(frame) : String()`);
every later resource is passed the null identifier. -/
def generateMHTMLPartsLoop (boundary : String) (policy : EncodingPolicy)
    (table : ContentIDMap) (frame : Frame) :
    Bool → List SerializedResource → List MHTMLPart
  | _, [] => []
  | isFirstResource, r :: rest =>
    generateMHTMLPart boundary
      (if isFirstResource then mapGet table frame else none) policy r ::
      generateMHTMLPartsLoop boundary policy table frame false rest

/-- `WebPageSerializer::generateMHTMLParts`: translates
`useBinaryEncoding` into the encoding policy and emits one part per
collected resource, starting with `isFirstResource = true`.  (The
collection of `resources` itself is done by the external
`PageSerializer` collaborator and is out of scope.) -/
def generateMHTMLParts (boundary : String) (frame : Frame)
    (useBinaryEncoding : Bool) (table : ContentIDMap)
    (resources : List SerializedResource) : List MHTMLPart :=
  generateMHTMLPartsLoop boundary
    (if useBinaryEncoding then EncodingPolicy.ForceBinary
     else EncodingPolicy.Default)
    table frame true resources

/-- The two document properties `WebPageSerializer::generateMHTMLHeader`
reads off the frame it is given. -/
structure WebDocument where
  title : String
  suggestedMIMEType : String
deriving DecidableEq

/-- `true` when every character of the string is plain ASCII. -/
def isASCIIString (s : String) : Bool :=
  s.data.all (fun c => c.toNat ≤ 127)

/-- Modelled from the spec: the `Subject` field value carrying the
document title — opaque text, wrapped as a MIME encoded word when it is
not transport-safe ASCII (§4.1). -/
def encodeSubject (title : String) : String :=
  if isASCIIString title then title
  else "=?utf-8?Q?" ++ title ++ "?="

/-- Modelled from the spec: the save-date field text.  §4.1 specifies
header emission as a pure function of (boundary, title, rootMediaType),
so within this model the session date is a fixed string. -/
def archiveDateString : String := "Mon, 1 Jan 2000 00:00:00 -0000"

/-- Modelled from the spec: `MHTMLArchive::generateMHTMLHeader` is not
part of the visible source.  Per §4.1 it emits the outer envelope: origin
marker, `Subject` with the (encoded) title, save date, `MIME-Version`,
and `Content-Type: multipart/related` carrying the boundary verbatim and
a `type` parameter equal to the root media type. -/
def generateMHTMLHeaderBytes (boundary title mimeType : String) : String :=
  "From: <Saved by Blink>\r\n" ++
  "Subject: " ++ encodeSubject title ++ "\r\n" ++
  "Date: " ++ archiveDateString ++ "\r\n" ++
  "MIME-Version: 1.0\r\n" ++
  "Content-Type: multipart/related;\r\n" ++
  "\ttype=\"" ++ mimeType ++ "\";\r\n" ++
  "\tboundary=\"" ++ boundary ++ "\"\r\n\r\n"

/-- `WebPageSerializer::generateMHTMLHeader`: reads the frame document's
title and suggested MIME type and delegates to archive header emission. -/
def webGenerateMHTMLHeader (boundary : String) (document : WebDocument) :
    String :=
  generateMHTMLHeaderBytes boundary document.title document.suggestedMIMEType

end Blink

namespace Blink

/-- C6: `shouldIgnoreAttribute` returns true exactly on the responsive-image
candidate attribute `srcset`, and false on every other attribute name. -/
theorem shouldIgnoreAttribute_iff_srcset (a : Attribute) :
    shouldIgnoreAttribute a = true ↔ a.localName = "srcset" := by
  simp [shouldIgnoreAttribute, srcsetAttrLocalName]

/-- C8: `generateBaseTagDeclaration` yields exactly the bare base tag on an
empty base target, and exactly the targeted base tag on a non-empty one. -/
theorem generateBaseTagDeclaration_spec :
    generateBaseTagDeclaration "" = "<base href=\".\">" ∧
    ∀ t : String, ¬(t = "") →
      generateBaseTagDeclaration t =
        "<base href=\".\" target=\"" ++ t ++ "\">" := by
  constructor
  · rfl
  · intro t ht
    have hne : t.isEmpty = false := by
      cases h : t.isEmpty
      · rfl
      · exact absurd ((String.isEmpty_iff t).mp h) ht
    simp [generateBaseTagDeclaration, hne]

/-- Witness for C8 at the concrete base target `"_blank"`. -/
theorem generateBaseTagDeclaration_spec_witness :
    generateBaseTagDeclaration "_blank" =
      "<base href=\".\" target=\"" ++ "_blank" ++ "\">" :=
  generateBaseTagDeclaration_spec.2 "_blank" (by decide)

/-- C10: `generateMetaCharsetDeclaration` is exact verbatim concatenation
around the charset, with no escaping: the output always holds exactly the
four template double-quote characters plus every double quote of the
charset itself, so a charset containing a double quote breaks out of the
attribute value. -/
theorem generateMetaCharsetDeclaration_spec (c : String) :
    generateMetaCharsetDeclaration c =
      "<meta http-equiv=\"Content-Type\" content=\"text/html; charset=" ++
        c ++ "\">" ∧
    (generateMetaCharsetDeclaration c).data.count '"' =
      4 + c.data.count '"' := by
  refine ⟨rfl, ?_⟩
  have h : (generateMetaCharsetDeclaration c).data =
      ("<meta http-equiv=\"Content-Type\" content=\"text/html; charset=".data
        ++ c.data) ++ "\">".data := by
    simp [generateMetaCharsetDeclaration, String.data_append]
  rw [h, List.count_append, List.count_append]
  have h1 :
      "<meta http-equiv=\"Content-Type\" content=\"text/html; charset=".data.count '"'
        = 3 := by decide
  have h2 : "\">".data.count '"' = 1 := by decide
  rw [h1, h2]
  omega

theorem getD_mem_of_lt {α : Type} (l : List α) (d : α) (i : Nat)
    (h : i < l.length) : l.getD i d ∈ l := by
  rw [List.getD_eq_getElem l d h]
  exact List.getElem_mem h

theorem generateMHTMLPartsLoop_length (boundary : String)
    (policy : EncodingPolicy) (table : ContentIDMap) (frame : Frame) :
    ∀ (flag : Bool) (rs : List SerializedResource),
      (generateMHTMLPartsLoop boundary policy table frame flag rs).length =
        rs.length := by
  intro flag rs
  induction rs generalizing flag with
  | nil => rfl
  | cons r rest ih => simp [generateMHTMLPartsLoop, ih]

theorem generateMHTMLPartsLoop_false_contentID (boundary : String)
    (policy : EncodingPolicy) (table : ContentIDMap) (frame : Frame) :
    ∀ rs : List SerializedResource,
      ∀ p ∈ generateMHTMLPartsLoop boundary policy table frame false rs,
        p.contentID = none := by
  intro rs
  induction rs with
  | nil => simp [generateMHTMLPartsLoop]
  | cons r rest ih =>
    intro p hp
    rw [generateMHTMLPartsLoop] at hp
    rcases List.mem_cons.mp hp with h1 | h2
    · subst h1
      rfl
    · exact ih p h2

/-- C1: in part emission, a resource batch's emitted part carries a
`Content-ID` field exactly when its index in the batch is 0 (the frame's
own document), and the first part's content identifier is exactly the one
the `ContentIDMap` stores for the batch's frame; every later part is
passed the absent identifier. -/
theorem generateMHTMLParts_contentID (boundary : String) (frame : Frame)
    (useBinaryEncoding : Bool) (table : ContentIDMap)
    (resources : List SerializedResource) (cid : String)
    (hcid : mapGet table frame = some cid) (i : Nat)
    (hi : i < resources.length) :
    (hasContentID ((generateMHTMLParts boundary frame useBinaryEncoding
        table resources).getD i defaultMHTMLPart) = true ↔ i = 0) ∧
    (i = 0 →
      ((generateMHTMLParts boundary frame useBinaryEncoding table
        resources).getD i defaultMHTMLPart).contentID = some cid) := by
  cases resources with
  | nil => simp at hi
  | cons r rest =>
    rw [generateMHTMLParts, generateMHTMLPartsLoop]
    cases i with
    | zero =>
      constructor
      · simp [List.getD_cons_zero, hasContentID, generateMHTMLPart, hcid]
      · intro _
        simp [List.getD_cons_zero, generateMHTMLPart, hcid]
    | succ j =>
      have hj : j < rest.length := by
        simpa using hi
      have hlen : j < (generateMHTMLPartsLoop boundary
          (if useBinaryEncoding then EncodingPolicy.ForceBinary
           else EncodingPolicy.Default) table frame false rest).length := by
        rw [generateMHTMLPartsLoop_length]
        exact hj
      have hnone : ((generateMHTMLPartsLoop boundary
          (if useBinaryEncoding then EncodingPolicy.ForceBinary
           else EncodingPolicy.Default) table frame false rest).getD j
          defaultMHTMLPart).contentID = none :=
        generateMHTMLPartsLoop_false_contentID boundary _ table frame rest _
          (getD_mem_of_lt _ defaultMHTMLPart j hlen)
      constructor
      · rw [List.getD_cons_succ, hasContentID, hnone]
        simp
      · intro h
        cases h

/-- Witness for C1: a two-resource batch (document plus one image) under
the default policy; the first part carries the mapped identifier, the
second carries none (checked at index 0 via the theorem itself). -/
theorem generateMHTMLParts_contentID_witness :
    (hasContentID ((generateMHTMLParts "BOUNDARY1" (Frame.mk 0) false
        [(Frame.mk 0, "root@archive")]
        [SerializedResource.mk "http://a/" "text/html" (some "UTF-8") [72],
         SerializedResource.mk "http://a/i.png" "image/png" none [1]]).getD 0
        defaultMHTMLPart) = true ↔ (0 : Nat) = 0) ∧
    ((0 : Nat) = 0 →
      ((generateMHTMLParts "BOUNDARY1" (Frame.mk 0) false
        [(Frame.mk 0, "root@archive")]
        [SerializedResource.mk "http://a/" "text/html" (some "UTF-8") [72],
         SerializedResource.mk "http://a/i.png" "image/png" none [1]]).getD 0
        defaultMHTMLPart).contentID = some "root@archive") :=
  generateMHTMLParts_contentID "BOUNDARY1" (Frame.mk 0) false
    [(Frame.mk 0, "root@archive")]
    [SerializedResource.mk "http://a/" "text/html" (some "UTF-8") [72],
     SerializedResource.mk "http://a/i.png" "image/png" none [1]]
    "root@archive" (by decide) 0 (by decide)

/-- C7: header emission is a pure, deterministic function of boundary,
document title and root media type: two invocations over documents
agreeing on title and suggested MIME type yield identical bytes. -/
theorem generateMHTMLHeader_deterministic (boundary : String)
    (d1 d2 : WebDocument) (ht : d1.title = d2.title)
    (hm : d1.suggestedMIMEType = d2.suggestedMIMEType) :
    webGenerateMHTMLHeader boundary d1 = webGenerateMHTMLHeader boundary d2 := by
  simp [webGenerateMHTMLHeader, ht, hm]

/-- Witness for C7 at two structurally equal documents. -/
theorem generateMHTMLHeader_deterministic_witness :
    webGenerateMHTMLHeader "B" (WebDocument.mk "Title" "text/html") =
      webGenerateMHTMLHeader "B" (WebDocument.mk "Title" "text/html") :=
  generateMHTMLHeader_deterministic "B" (WebDocument.mk "Title" "text/html")
    (WebDocument.mk "Title" "text/html") rfl rfl

/-- C2: `rewriteLink` rewrites a frame/iframe-like frame owner with a
content frame to its `cid:` reference unconditionally; rewrites an object
element with a content frame exactly when the nested document is an HTML,
XHTML or image document; and leaves every other element untouched. -/
theorem rewriteLink_spec (m : ContentIDMap) (e : Element) :
    (∀ f cid, e.isFrameOwnerElement = true → e.isHTMLFrameElementBase = true →
      e.contentFrame = some f → mapGet m f = some cid →
      rewriteLink m e = Except.ok (some ("cid:" ++ cid))) ∧
    (∀ f cid, e.isFrameOwnerElement = true →
      e.isHTMLFrameElementBase = false → e.isHTMLObjectElement = true →
      e.contentFrame = some f → mapGet m f = some cid →
      rewriteLink m e =
        if e.contentDocument.isHTMLDocument ||
            e.contentDocument.isXHTMLDocument ||
            e.contentDocument.isImageDocument then
          Except.ok (some ("cid:" ++ cid))
        else Except.ok none) ∧
    (e.isFrameOwnerElement = false → rewriteLink m e = Except.ok none) ∧
    (∀ f cid, e.isFrameOwnerElement = true →
      e.isHTMLFrameElementBase = false → e.isHTMLObjectElement = false →
      e.contentFrame = some f → mapGet m f = some cid →
      rewriteLink m e = Except.ok none) := by
  refine ⟨?_, ?_, ?_, ?_⟩
  · intro f cid ho hb hf hm
    simp [rewriteLink, ho, hb, hf, hm, convertContentIDToURI]
  · intro f cid ho hb hobj hf hm
    simp [rewriteLink, ho, hb, hobj, hf, hm, convertContentIDToURI]
  · intro ho
    simp [rewriteLink, ho]
  · intro f cid ho hb hobj hf hm
    simp [rewriteLink, ho, hb, hobj, hf, hm, convertContentIDToURI]

/-- Witness for C2 at a concrete iframe-like element mapped to `"abc"`. -/
theorem rewriteLink_spec_witness :
    rewriteLink [(Frame.mk 0, "abc")]
      (Element.mk true (some (Frame.mk 0)) true false
        (PageDocument.mk true false false)) =
      Except.ok (some ("cid:" ++ "abc")) :=
  (rewriteLink_spec [(Frame.mk 0, "abc")]
      (Element.mk true (some (Frame.mk 0)) true false
        (PageDocument.mk true false false))).1
    (Frame.mk 0) "abc" rfl rfl rfl (by decide)

/-- C3: a frame owner whose content frame has no `ContentIDMap` entry makes
`rewriteLink` fail the `ASSERT(cidURI.isValid())` check: the call is a
fatal contract violation, never a produced link value. -/
theorem rewriteLink_missing_entry (m : ContentIDMap) (e : Element)
    (f : Frame) (ho : e.isFrameOwnerElement = true)
    (hf : e.contentFrame = some f) (hm : mapGet m f = none) :
    rewriteLink m e = Except.error RewriteFailure.assertionFailed := by
  simp [rewriteLink, ho, hf, hm, convertContentIDToURI]

/-- Witness for C3: an iframe-like frame owner over an empty table. -/
theorem rewriteLink_missing_entry_witness :
    rewriteLink []
      (Element.mk true (some (Frame.mk 7)) true false
        (PageDocument.mk false false false)) =
      Except.error RewriteFailure.assertionFailed :=
  rewriteLink_missing_entry []
    (Element.mk true (some (Frame.mk 7)) true false
      (PageDocument.mk false false false))
    (Frame.mk 7) rfl rfl rfl

/-- C5: a frame-owning (frame/iframe-like) element whose nested frame is
mapped to `"abc"` is rewritten to exactly `cid:abc`, and that value is a
syntactically valid URI. -/
theorem rewriteLink_cid_abc (m : ContentIDMap) (e : Element) (f : Frame)
    (ho : e.isFrameOwnerElement = true)
    (hb : e.isHTMLFrameElementBase = true)
    (hf : e.contentFrame = some f) (hm : mapGet m f = some "abc") :
    rewriteLink m e = Except.ok (some "cid:abc") ∧
      isValidURI "cid:abc" = true := by
  refine ⟨?_, by decide⟩
  have : ("cid:" ++ "abc" : String) = "cid:abc" := rfl
  simp [rewriteLink, ho, hb, hf, hm, convertContentIDToURI]

/-- Witness for C5 at a concrete element and table. -/
theorem rewriteLink_cid_abc_witness :
    rewriteLink [(Frame.mk 3, "abc")]
      (Element.mk true (some (Frame.mk 3)) true false
        (PageDocument.mk false false false)) =
      Except.ok (some "cid:abc") ∧ isValidURI "cid:abc" = true :=
  rewriteLink_cid_abc [(Frame.mk 3, "abc")]
    (Element.mk true (some (Frame.mk 3)) true false
      (PageDocument.mk false false false))
    (Frame.mk 3) rfl rfl rfl (by decide)

/-- C9: a frame-owner element whose content frame is absent is silently
left untouched: `rewriteLink` reports no rewritten link, for every table,
without failing. -/
theorem rewriteLink_no_content_frame (m : ContentIDMap) (e : Element)
    (ho : e.isFrameOwnerElement = true) (hf : e.contentFrame = none) :
    rewriteLink m e = Except.ok none := by
  simp [rewriteLink, ho, hf]

theorem consHead_ne_nil (c : Nat) (ls : List (List Nat)) :
    consHead c ls ≠ [] := by
  cases ls <;> simp [consHead]

theorem splitCRLF_cons (c : Nat) (rest : List Nat) (hc : c ≠ 13) :
    splitCRLF (c :: rest) = consHead c (splitCRLF rest) := by
  cases rest with
  | nil => simp [splitCRLF, consHead]
  | cons d rest2 => simp [splitCRLF, hc]

theorem splitCRLF_crlf (rest : List Nat) :
    splitCRLF (13 :: 10 :: rest) = [] :: splitCRLF rest := by
  simp [splitCRLF]

theorem splitCRLF_no13 (cs : List Nat) (h : ∀ c ∈ cs, c ≠ 13) :
    splitCRLF cs = [cs] := by
  induction cs with
  | nil => rfl
  | cons c rest ih =>
    rw [splitCRLF_cons c rest (h c (List.mem_cons_self c rest))]
    rw [ih (fun x hx => h x (List.mem_cons_of_mem c hx))]
    rfl

theorem splitCRLF_append (pre xs : List Nat) (hpre : ∀ c ∈ pre, c ≠ 13)
    (h t) (hx : splitCRLF xs = h :: t) :
    splitCRLF (pre ++ xs) = (pre ++ h) :: t := by
  induction pre with
  | nil => simpa using hx
  | cons c pre ih =>
    rw [List.cons_append,
      splitCRLF_cons c (pre ++ xs) (hpre c (List.mem_cons_self c pre))]
    rw [ih (fun x hx2 => hpre x (List.mem_cons_of_mem c hx2))]
    rfl

theorem splitCRLF_wrap76 : ∀ cs : List Nat, (∀ c ∈ cs, c ≠ 13) →
    ∀ l ∈ splitCRLF (wrap76 cs), l.length ≤ 76 := by
  intro cs
  induction cs using wrap76.induct with
  | case1 cs hle =>
    intro hno l hl
    rw [wrap76, if_pos hle] at hl
    rw [splitCRLF_no13 cs hno] at hl
    simp at hl
    subst hl
    exact hle
  | case2 cs hle ih =>
    intro hno l hl
    rw [wrap76, if_neg hle] at hl
    have hd : ∀ c ∈ cs.drop 76, c ≠ 13 :=
      fun c hc => hno c (List.drop_subset 76 cs hc)
    have ht : ∀ c ∈ cs.take 76, c ≠ 13 :=
      fun c hc => hno c (List.take_subset 76 cs hc)
    rw [splitCRLF_append (cs.take 76) _ ht []
      (splitCRLF (wrap76 (cs.drop 76)))
      (splitCRLF_crlf (wrap76 (cs.drop 76)))] at hl
    rw [List.append_nil] at hl
    rcases List.mem_cons.mp hl with h1 | h2
    · subst h1
      simp [List.length_take]
    · exact ih hd l h2

theorem stripCRLF_wrap76 : ∀ cs : List Nat,
    (∀ c ∈ cs, c ≠ 13 ∧ c ≠ 10) → stripCRLF (wrap76 cs) = cs := by
  intro cs
  induction cs using wrap76.induct with
  | case1 cs hle =>
    intro hno
    rw [stripCRLF, wrap76, if_pos hle]
    rw [List.filter_eq_self]
    intro a ha
    simp [hno a ha]
  | case2 cs hle ih =>
    intro hno
    rw [stripCRLF, wrap76, if_neg hle]
    rw [List.filter_append]
    have hd : ∀ c ∈ cs.drop 76, c ≠ 13 ∧ c ≠ 10 :=
      fun c hc => hno c (List.drop_subset 76 cs hc)
    have h1 : (cs.take 76).filter (fun c => c ≠ 13 && c ≠ 10) = cs.take 76 := by
      rw [List.filter_eq_self]
      intro a ha
      simp [hno a (List.take_subset 76 cs ha)]
    have h2 : (13 :: 10 :: wrap76 (cs.drop 76)).filter
        (fun c => c ≠ 13 && c ≠ 10) = cs.drop 76 := by
      rw [List.filter_cons_of_neg, List.filter_cons_of_neg]
      · exact ih hd
      · simp
      · simp
    rw [h1, h2, List.take_append_drop]

theorem unhexByte_hexByte (n : Nat) (h : n < 16) :
    unhexByte (hexByte n) = some n := by
  have hfin : ∀ m : Fin 16, unhexByte (hexByte m.val) = some m.val := by decide
  exact hfin ⟨n, h⟩

theorem hexByte_ge (n : Nat) : 48 ≤ hexByte n := by
  unfold hexByte
  split_ifs <;> omega

theorem qpEncodeByte_atom (b : Nat) :
    (qpEncodeByte b).length ≤ 3 ∧ ∀ c ∈ qpEncodeByte b, c ≠ 13 := by
  unfold qpEncodeByte
  split_ifs with h
  · refine ⟨by simp, ?_⟩
    intro c hc
    simp at hc
    omega
  · refine ⟨by simp, ?_⟩
    intro c hc
    have g1 := hexByte_ge (b / 16)
    have g2 := hexByte_ge (b % 16)
    simp at hc
    rcases hc with h1 | h1 | h1 <;> omega

theorem qpDecode_encodeByte (b : Nat) (hb : b < 256) (tail : List Nat) :
    qpDecode (qpEncodeByte b ++ tail) =
      (qpDecode tail).map fun bs => b :: bs := by
  obtain ⟨hb1, hb2, hb3⟩ | hlit :=
    Decidable.em (33 ≤ b ∧ b ≤ 126 ∧ b ≠ 61)
  · rw [qpEncodeByte, if_pos ⟨hb1, hb2, hb3⟩, List.cons_append,
      List.nil_append]
    match tail with
    | [] => simp [qpDecode, hb1, hb2, hb3]
    | [t1] => simp [qpDecode, hb1, hb2, hb3]
    | t1 :: t2 :: ts => simp [qpDecode, hb1, hb2, hb3]
  · rw [qpEncodeByte, if_neg hlit]
    rw [List.cons_append, List.cons_append, List.cons_append,
      List.nil_append]
    rw [qpDecode]
    rw [if_pos rfl]
    rw [if_neg (fun h => by have := hexByte_ge (b / 16); omega)]
    rw [unhexByte_hexByte (b / 16) (by omega),
      unhexByte_hexByte (b % 16) (by omega)]
    simp only [Option.some_bind]
    have hr : b / 16 * 16 + b % 16 = b := by omega
    rw [hr]

theorem qpDecode_qpWrap (bs : List Nat) (hb : ∀ b ∈ bs, b < 256) :
    ∀ n : Nat, qpDecode (qpWrap (bs.map qpEncodeByte) n) = some bs := by
  induction bs with
  | nil => intro n; rfl
  | cons b rest ih =>
    intro n
    have hb0 : b < 256 := hb b (by simp)
    have hrest : ∀ x ∈ rest, x < 256 := fun x hx => hb x (by simp [hx])
    rw [List.map_cons, qpWrap]
    split_ifs with hfit
    · rw [qpDecode_encodeByte b hb0, ih hrest]
      rfl
    · rw [qpDecode]
      rw [if_pos rfl]
      rw [if_pos ⟨rfl, rfl⟩]
      rw [qpDecode_encodeByte b hb0, ih hrest]
      rfl

theorem qpDecode_qpEncode (bs : List Nat) (hb : ∀ b ∈ bs, b < 256) :
    qpDecode (qpEncode bs) = some bs :=
  qpDecode_qpWrap bs hb 0

theorem qpWrap_lines : ∀ atoms : List (List Nat), ∀ n : Nat,
    (∀ a ∈ atoms, a.length ≤ 3 ∧ ∀ c ∈ a, c ≠ 13) → n ≤ 75 →
    ∃ L Ls, splitCRLF (qpWrap atoms n) = L :: Ls ∧ n + L.length ≤ 76 ∧
      ∀ l ∈ Ls, l.length ≤ 76 := by
  intro atoms
  induction atoms with
  | nil =>
    intro n _ hn
    exact ⟨[], [], rfl, by simp; omega, by simp⟩
  | cons a rest ih =>
    intro n hat hn
    have ha : a.length ≤ 3 ∧ ∀ c ∈ a, c ≠ 13 := hat a (by simp)
    have hrest : ∀ x ∈ rest, x.length ≤ 3 ∧ ∀ c ∈ x, c ≠ 13 :=
      fun x hx => hat x (by simp [hx])
    rw [qpWrap]
    split_ifs with hfit
    · obtain ⟨L, Ls, hsplit, hL, hLs⟩ := ih (n + a.length) hrest hfit
      refine ⟨a ++ L, Ls, ?_, ?_, hLs⟩
      · exact splitCRLF_append a _ ha.2 L Ls hsplit
      · simp only [List.length_append]
        omega
    · obtain ⟨L, Ls, hsplit, hL, hLs⟩ := ih a.length hrest (by omega)
      refine ⟨[61], (a ++ L) :: Ls, ?_, by simp; omega, ?_⟩
      · rw [splitCRLF_cons 61 _ (by omega)]
        rw [splitCRLF_crlf]
        rw [splitCRLF_append a _ ha.2 L Ls hsplit]
        rfl
      · intro l hl
        rcases List.mem_cons.mp hl with h1 | h2
        · subst h1
          simp only [List.length_append]
          omega
        · exact hLs l h2

theorem qpEncode_lines (bs : List Nat) :
    ∀ l ∈ splitCRLF (qpEncode bs), l.length ≤ 76 := by
  have hat : ∀ a ∈ bs.map qpEncodeByte, a.length ≤ 3 ∧ ∀ c ∈ a, c ≠ 13 := by
    intro a ha
    rcases List.mem_map.mp ha with ⟨b, _, hb⟩
    subst hb
    exact qpEncodeByte_atom b
  obtain ⟨L, Ls, hsplit, hL, hLs⟩ :=
    qpWrap_lines (bs.map qpEncodeByte) 0 hat (by omega)
  intro l hl
  rw [qpEncode] at hl
  rw [hsplit] at hl
  rcases List.mem_cons.mp hl with h1 | h2
  · subst h1
    omega
  · exact hLs l h2

theorem b64Val_b64Byte (n : Nat) (h : n < 64) :
    b64Val (b64Byte n) = some n := by
  have hfin : ∀ m : Fin 64, b64Val (b64Byte m.val) = some m.val := by decide
  exact hfin ⟨n, h⟩

theorem b64Byte_ne (n : Nat) :
    b64Byte n ≠ 13 ∧ b64Byte n ≠ 10 ∧ b64Byte n ≠ 61 := by
  unfold b64Byte
  split_ifs <;> omega

theorem b64EncodeRaw_mem (bs : List Nat) :
    ∀ c ∈ b64EncodeRaw bs, c ≠ 13 ∧ c ≠ 10 := by
  induction bs using b64EncodeRaw.induct with
  | case1 => simp [b64EncodeRaw]
  | case2 a =>
    intro c hc
    simp [b64EncodeRaw] at hc
    rcases hc with h | h | h <;>
      first
        | (subst h; exact ⟨(b64Byte_ne _).1, (b64Byte_ne _).2.1⟩)
        | (subst h; omega)
  | case3 a b =>
    intro c hc
    simp [b64EncodeRaw] at hc
    rcases hc with h | h | h | h <;>
      first
        | (subst h; exact ⟨(b64Byte_ne _).1, (b64Byte_ne _).2.1⟩)
        | (subst h; omega)
  | case4 a b c rest ih =>
    intro e he
    simp only [b64EncodeRaw, List.mem_cons] at he
    rcases he with h | h | h | h | h
    · subst h; exact ⟨(b64Byte_ne _).1, (b64Byte_ne _).2.1⟩
    · subst h; exact ⟨(b64Byte_ne _).1, (b64Byte_ne _).2.1⟩
    · subst h; exact ⟨(b64Byte_ne _).1, (b64Byte_ne _).2.1⟩
    · subst h; exact ⟨(b64Byte_ne _).1, (b64Byte_ne _).2.1⟩
    · exact ih e h

theorem b64DecodeRaw_encodeRaw (bs : List Nat) (hb : ∀ b ∈ bs, b < 256) :
    b64DecodeRaw (b64EncodeRaw bs) = some bs := by
  induction bs using b64EncodeRaw.induct with
  | case1 => rfl
  | case2 a =>
    have ha : a < 256 := hb a (by simp)
    rw [b64EncodeRaw, b64DecodeRaw,
      b64Val_b64Byte (a / 4) (by omega), b64Val_b64Byte (a % 4 * 16) (by omega)]
    simp only [Option.some_bind]
    rw [if_pos (⟨trivial, trivial, trivial⟩ : True ∧ True ∧ True)]
    congr 1
    simp only [List.cons.injEq, and_true]
    omega
  | case3 a b =>
    have ha : a < 256 := hb a (by simp)
    have hbb : b < 256 := hb b (by simp)
    rw [b64EncodeRaw, b64DecodeRaw,
      b64Val_b64Byte (a / 4) (by omega),
      b64Val_b64Byte (a % 4 * 16 + b / 16) (by omega)]
    simp only [Option.some_bind]
    rw [if_neg (fun h => (b64Byte_ne _).2.2 h.1)]
    rw [b64Val_b64Byte (b % 16 * 4) (by omega)]
    simp only [Option.some_bind]
    rw [if_pos (⟨trivial, trivial⟩ : True ∧ True)]
    congr 1
    simp only [List.cons.injEq, and_true]
    constructor
    · omega
    · omega
  | case4 a b c rest ih =>
    have ha : a < 256 := hb a (by simp)
    have hbb : b < 256 := hb b (by simp)
    have hc : c < 256 := hb c (by simp)
    have hrest : ∀ x ∈ rest, x < 256 := fun x hx => hb x (by simp [hx])
    rw [b64EncodeRaw, b64DecodeRaw,
      b64Val_b64Byte (a / 4) (by omega),
      b64Val_b64Byte (a % 4 * 16 + b / 16) (by omega)]
    simp only [Option.some_bind]
    rw [if_neg (fun h => (b64Byte_ne _).2.2 h.1)]
    rw [b64Val_b64Byte (b % 16 * 4 + c / 64) (by omega)]
    simp only [Option.some_bind]
    rw [if_neg (fun h => (b64Byte_ne _).2.2 h.1)]
    rw [b64Val_b64Byte (c % 64) (by omega)]
    simp only [Option.some_bind]
    rw [ih hrest]
    simp only [Option.map_some']
    congr 1
    have e1 : a / 4 * 4 + (a % 4 * 16 + b / 16) / 16 = a := by omega
    have e2 : (a % 4 * 16 + b / 16) % 16 * 16 + (b % 16 * 4 + c / 64) / 4 = b := by
      omega
    have e3 : (b % 16 * 4 + c / 64) % 4 * 64 + c % 64 = c := by omega
    rw [e1, e2, e3]

theorem b64Decode_b64Encode (bs : List Nat) (hb : ∀ b ∈ bs, b < 256) :
    b64Decode (b64Encode bs) = some bs := by
  rw [b64Decode, b64Encode, stripCRLF_wrap76 (b64EncodeRaw bs) (b64EncodeRaw_mem bs)]
  exact b64DecodeRaw_encodeRaw bs hb

theorem b64Encode_lines (bs : List Nat) :
    ∀ l ∈ splitCRLF (b64Encode bs), l.length ≤ 76 := by
  rw [b64Encode]
  exact splitCRLF_wrap76 (b64EncodeRaw bs)
    (fun c hc => (b64EncodeRaw_mem bs c hc).1)

theorem decodeBody_encodeBody (e : TransferEncoding) (bs : List Nat)
    (hb : ∀ b ∈ bs, b < 256) : decodeBody e (encodeBody e bs) = some bs := by
  cases e with
  | SevenBit => rfl
  | QuotedPrintable => exact qpDecode_qpEncode bs hb
  | Base64 => exact b64Decode_b64Encode bs hb
  | Binary => rfl

/-- C4: for every resource byte sequence and media type, under both the
`Default` and `ForceBinary` policies, decoding the body produced by the
selected transfer encoding reproduces the original bytes exactly, and the
quoted-printable and base64 encoders wrap their output lines at a maximum
of 76 characters. -/
theorem transferEncoding_roundTrip_and_wrap (bytes : List Nat)
    (hb : ∀ b ∈ bytes, b < 256) (mediaType : String)
    (policy : EncodingPolicy) :
    decodeBody (selectEncoding mediaType policy)
        (encodeBody (selectEncoding mediaType policy) bytes) = some bytes ∧
      (∀ l ∈ splitCRLF (qpEncode bytes), l.length ≤ 76) ∧
      (∀ l ∈ splitCRLF (b64Encode bytes), l.length ≤ 76) :=
  ⟨decodeBody_encodeBody (selectEncoding mediaType policy) bytes hb,
    qpEncode_lines bytes, b64Encode_lines bytes⟩

/-- Witness for C4 at a concrete byte sequence (printable, `=`, CR,
high-bit and NUL bytes), the `text/html` media type and the default
policy. -/
theorem transferEncoding_roundTrip_and_wrap_witness :
    (∀ b ∈ [72, 101, 61, 13, 200, 0], b < 256) ∧
    (decodeBody (selectEncoding "text/html" EncodingPolicy.Default)
        (encodeBody (selectEncoding "text/html" EncodingPolicy.Default)
          [72, 101, 61, 13, 200, 0]) = some [72, 101, 61, 13, 200, 0] ∧
      (∀ l ∈ splitCRLF (qpEncode [72, 101, 61, 13, 200, 0]), l.length ≤ 76) ∧
      (∀ l ∈ splitCRLF (b64Encode [72, 101, 61, 13, 200, 0]),
        l.length ≤ 76)) :=
  ⟨by decide,
    transferEncoding_roundTrip_and_wrap [72, 101, 61, 13, 200, 0]
      (by decide) "text/html" EncodingPolicy.Default⟩

/-- Witness for C9: an empty iframe-like frame owner. -/
theorem rewriteLink_no_content_frame_witness :
    rewriteLink [(Frame.mk 1, "x")]
      (Element.mk true none true false (PageDocument.mk false false false)) =
      Except.ok none :=
  rewriteLink_no_content_frame [(Frame.mk 1, "x")]
    (Element.mk true none true false (PageDocument.mk false false false))
    rfl rfl

end Blink
